import Mathlib

/-!
# Verification of the `store` distributed object store

Shallow embedding, in Lean 4, of the components of the `store` repository that the
specification's claims concern:

* the authenticated datagram codec (`src/crypto.rs`),
* the hash functions (`src/hash.rs`) and the storage-map placement engine
  (`src/storage_map.rs`),
* the daemon request router (`src/daemon.rs`),
* the client receive demultiplexer (`src/client.rs`).

Modelling conventions:

* bytes are `List Nat` (each entry a value `< 256` produced by the byte-level
  operations themselves); machine integers are `Nat` with explicit reductions
  `% 2^32` / `% 2^64` where Rust wraps;
* Rust operations that can panic (slice indexing out of bounds, `x % 0`,
  `Option::unwrap` on `None`, `Result::unwrap` on `Err`) are modelled by explicit
  `panicked` constructors in the result types;
* the unbounded `loop` of `compute_location` is modelled with an explicit fuel
  parameter; running out of fuel is a separate `fuelOut` constructor, so divergence
  is never confused with any returned value;
* AES-128 block encryption and HMAC-SHA-256 come from external crates (`aes`,
  `hmac`, `sha2`); they are modelled as function parameters (`aes`, `mac`) of the
  codec, together with the length facts the crates guarantee (16-byte blocks,
  32-byte tags).
-/

namespace Store

/-- `2^32`, the modulus of Rust `u32` arithmetic. -/
def M32 : Nat := 2 ^ 32

/-- `2^64`, the modulus of Rust `u64` arithmetic. -/
def M64 : Nat := 2 ^ 64

/-- Big-endian 4-byte encoding of a `u32` (`byteorder::BigEndian` `write_u32`).
Truncates its argument to 32 bits, like `as u32` does. -/
def be32 (n : Nat) : List Nat :=
  [n / 2 ^ 24 % 256, n / 2 ^ 16 % 256, n / 2 ^ 8 % 256, n % 256]

/-- Big-endian read of the first 4 bytes (`read_u32::<BigEndian>`); missing bytes
read as 0 (the source only calls this where at least 4 bytes exist). -/
def readBE32 (l : List Nat) : Nat :=
  l.getD 0 0 * 2 ^ 24 + l.getD 1 0 * 2 ^ 16 + l.getD 2 0 * 2 ^ 8 + l.getD 3 0

/-- `&data[pos..pos+len]` as a total function (bounds are checked at call sites). -/
def slice (l : List Nat) (pos len : Nat) : List Nat := (l.drop pos).take len

/-- Zero-pad a list on the right to length `n` (a Rust `[0; n]` buffer whose prefix
was overwritten). -/
def padTo (n : Nat) (l : List Nat) : List Nat := l ++ List.replicate (n - l.length) 0

/-- `xor_block` from `src/crypto.rs`: byte-wise xor of two buffers (the shorter
length wins, as the Rust `zip` does). -/
def zipXor (a b : List Nat) : List Nat := List.zipWith (fun x y => x ^^^ y) a b

/-- `cipher_block` from `src/crypto.rs`: the counter written little-endian into the
first 4 bytes of a zero block, then AES-encrypted.  The AES-128 encryption with the
pair's `encrypt_key` (external `aes` crate) is the parameter `aes`. -/
def cipherBlock (aes : List Nat → List Nat) (counter : Nat) : List Nat :=
  aes ([counter % 256, counter / 2 ^ 8 % 256, counter / 2 ^ 16 % 256,
        counter / 2 ^ 24 % 256] ++ List.replicate 12 0)

/-- The `while pos < data.len()` loop of `KeyPair::encrypt_into`: every further
16-byte block carries 16 plaintext bytes, the last zero-padded; each block consumes
one counter value (wrapping `u32` increment).  Returns the ciphertext blocks
and the final counter value. -/
def encBlocks (aes : List Nat → List Nat) (counter : Nat) (data : List Nat) :
    List Nat × Nat :=
  if h : data = [] then ([], counter)
  else
    let out := encBlocks aes ((counter + 1) % M32) (data.drop 16)
    (zipXor (padTo 16 (data.take 16)) (cipherBlock aes counter) ++ out.1, out.2)
termination_by data.length
decreasing_by
  have : 0 < data.length := List.length_pos.mpr h
  simp only [List.length_drop]
  omega

/-- `KeyPair::encrypt_into` from `src/crypto.rs`.  Emits the initial counter as 4
big-endian bytes, the first block (4-byte big-endian plaintext length plus the
first 12 plaintext bytes, zero-padded), the remaining blocks, then the 32-byte MAC
over everything so far.  `mac` is HMAC-SHA-256 with the pair's `mac_key` (external
`hmac`/`sha2` crates).  Returns the datagram and the new counter. -/
def encryptInto (aes mac : List Nat → List Nat) (data : List Nat) (counter0 : Nat) :
    List Nat × Nat :=
  let counter := counter0 % M32
  let firstBlock := zipXor (padTo 16 (be32 data.length ++ data.take 12))
    (cipherBlock aes counter)
  let rest := encBlocks aes ((counter + 1) % M32) (data.drop 12)
  let body := be32 counter ++ firstBlock ++ rest.1
  (body ++ mac body, rest.2)

/-- Result of `KeyPair::decrypt_into`: `reject` is the source's `return None`
(datagram silently discarded); `panicked` marks a Rust panic (out-of-bounds slice
index); `ok plaintext newCounter` is `Some(counter)` with the plaintext written to
the output buffer. -/
inductive DecResult where
  | reject : DecResult
  | panicked : DecResult
  | ok : List Nat → Nat → DecResult
deriving DecidableEq, Repr

/-- The `while length > 0` loop of `KeyPair::decrypt_into`, followed by the final
`data.len() - pos != MAC_SIZE` check.  The Rust slice expression
`&data[pos..pos + SIZE]` panics when `pos + SIZE` exceeds the datagram length;
that is the `panicked` branch. -/
def decLoop (aes : List Nat → List Nat) (data : List Nat) (len counter pos : Nat)
    (acc : List Nat) : DecResult :=
  if h : len = 0 then
    if data.length - pos ≠ 32 then .reject else .ok acc counter
  else if pos + 16 ≤ data.length then
    decLoop aes data (len - min len 16) ((counter + 1) % M32) (pos + 16)
      (acc ++ (zipXor (slice data pos 16) (cipherBlock aes counter)).take (min len 16))
  else .panicked
termination_by len
decreasing_by omega

/-- The block-decryption tail of `KeyPair::decrypt_into` (after all checks have
passed): decrypt the first block, read the embedded big-endian plaintext length
from it, copy its remaining up-to-12 bytes, then run the block loop. -/
def decryptBlocks (aes : List Nat → List Nat) (data : List Nat) (counter : Nat) :
    DecResult :=
  let block := zipXor (slice data 4 16) (cipherBlock aes counter)
  let len := readBE32 block
  decLoop aes data (len - min len 12) ((counter + 1) % M32) 20
    ((block.drop 4).take (min len 12))

/-- `KeyPair::decrypt_into` from `src/crypto.rs`.  Length checks, then the MAC over
`data[0 .. len-32]` is verified against the trailing 32 bytes, then the embedded
big-endian initial counter is compared against `minCounter`, then the blocks are
decrypted; the embedded length field of the first block drives the loop. -/
def decryptInto (aes mac : List Nat → List Nat) (data : List Nat) (minCounter : Nat) :
    DecResult :=
  if data.length < 4 + 16 + 32 then .reject
  else if data.length % 16 ≠ (4 + 32) % 16 then .reject
  else if mac (data.take (data.length - 32)) ≠ data.drop (data.length - 32) then .reject
  else if readBE32 data < minCounter then .reject
  else decryptBlocks aes data (readBE32 data)

/-- Concrete stand-in for the keyed AES-128 block permutation (zero keystream),
used to instantiate witnesses and counterexamples. -/
def aesZero : List Nat → List Nat := fun _ => List.replicate 16 0

/-- Concrete stand-in for keyed HMAC-SHA-256 (constant tag), used to instantiate
witnesses and counterexamples. -/
def macZero : List Nat → List Nat := fun _ => List.replicate 32 0

theorem length_be32 (n : Nat) : (be32 n).length = 4 := rfl

theorem readBE32_be32_append (n : Nat) (hn : n < M32) (rest : List Nat) :
    readBE32 (be32 n ++ rest) = n := by
  simp only [readBE32, be32, List.cons_append, List.getD_cons_zero, List.getD_cons_succ]
  have h24 : (2 : Nat) ^ 24 = 16777216 := by norm_num
  have h16 : (2 : Nat) ^ 16 = 65536 := by norm_num
  have h8 : (2 : Nat) ^ 8 = 256 := by norm_num
  have h32 : M32 = 4294967296 := by norm_num [M32]
  rw [h24, h16, h8]
  rw [h32] at hn
  omega

theorem length_zipXor (a b : List Nat) : (zipXor a b).length = min a.length b.length :=
  List.length_zipWith _ a b

theorem length_padTo (n : Nat) (l : List Nat) (h : l.length ≤ n) :
    (padTo n l).length = n := by
  simp [padTo]; omega

theorem take_length_padTo (n : Nat) (l : List Nat) : (padTo n l).take l.length = l := by
  simpa [padTo] using List.take_left l (List.replicate (n - l.length) 0)

theorem drop_padTo_append (a b : List Nat) (n : Nat) :
    (padTo n (a ++ b)).drop a.length = padTo (n - a.length) b := by
  unfold padTo
  rw [List.append_assoc, List.drop_left]
  have hn : n - (a ++ b).length = n - a.length - b.length := by
    simp [List.length_append]
    omega
  rw [hn]

theorem zipXor_zipXor_cancel (p : List Nat) :
    ∀ k : List Nat, p.length ≤ k.length → zipXor (zipXor p k) k = p := by
  induction p with
  | nil => intro k _; rfl
  | cons x p ih =>
    intro k hk
    cases k with
    | nil => simp at hk
    | cons y k =>
      simp only [zipXor, List.zipWith_cons_cons] at *
      have h1 : x ^^^ y ^^^ y = x := Nat.xor_cancel_right y x
      have h2 := ih k (by simpa using hk)
      rw [h1, h2]

theorem length_cipherBlock (aes : List Nat → List Nat)
    (haes : ∀ x, (aes x).length = 16) (c : Nat) : (cipherBlock aes c).length = 16 :=
  haes _

theorem encBlocks_nil (aes : List Nat → List Nat) (c : Nat) :
    encBlocks aes c [] = ([], c) := by
  rw [encBlocks]; rfl

theorem encBlocks_cons (aes : List Nat → List Nat) (c : Nat) (d : List Nat)
    (h : d ≠ []) :
    encBlocks aes c d =
      (zipXor (padTo 16 (d.take 16)) (cipherBlock aes c) ++
        (encBlocks aes ((c + 1) % M32) (d.drop 16)).1,
       (encBlocks aes ((c + 1) % M32) (d.drop 16)).2) := by
  rw [encBlocks]; simp [h]

theorem encBlocks_length_bounded (aes : List Nat → List Nat)
    (haes : ∀ x, (aes x).length = 16) :
    ∀ (N c : Nat) (d : List Nat), d.length ≤ N →
      ((encBlocks aes c d).1).length = 16 * ((d.length + 15) / 16) := by
  intro N
  induction N with
  | zero =>
    intro c d h
    have hd : d = [] := List.length_eq_zero.mp (Nat.le_zero.mp h)
    subst hd
    simp [encBlocks_nil]
  | succ N ih =>
    intro c d h
    by_cases hd : d = []
    · subst hd; simp [encBlocks_nil]
    · rw [encBlocks_cons aes c d hd]
      have hlen : 0 < d.length := List.length_pos.mpr hd
      have hrec := ih ((c + 1) % M32) (d.drop 16) (by simp [List.length_drop]; omega)
      simp only [List.length_append, length_zipXor, length_padTo, hrec,
        length_cipherBlock aes haes, List.length_drop]
      have htk : (d.take 16).length ≤ 16 := by simp [List.length_take]
      rw [length_padTo 16 _ htk]
      omega

theorem encBlocks_counter_bounded (aes : List Nat → List Nat) :
    ∀ (N c : Nat) (d : List Nat), d.length ≤ N → c < M32 →
      (encBlocks aes c d).2 = (c + (d.length + 15) / 16) % M32 := by
  intro N
  induction N with
  | zero =>
    intro c d h hc
    have hd : d = [] := List.length_eq_zero.mp (Nat.le_zero.mp h)
    subst hd
    simp [encBlocks_nil, Nat.mod_eq_of_lt hc]
  | succ N ih =>
    intro c d h hc
    by_cases hd : d = []
    · subst hd; simp [encBlocks_nil, Nat.mod_eq_of_lt hc]
    · rw [encBlocks_cons aes c d hd]
      have hlen : 0 < d.length := List.length_pos.mpr hd
      have hmod : (c + 1) % M32 < M32 := Nat.mod_lt _ (by norm_num [M32])
      have hrec := ih ((c + 1) % M32) (d.drop 16) (by simp [List.length_drop]; omega) hmod
      simp only [hrec, List.length_drop, Nat.mod_add_mod]
      congr 1
      omega

theorem decLoop_encBlocks (aes : List Nat → List Nat)
    (haes : ∀ x, (aes x).length = 16) :
    ∀ (N : Nat) (rest : List Nat), rest.length ≤ N →
      ∀ (c : Nat) (pre tail acc : List Nat), tail.length = 32 →
      decLoop aes (pre ++ (encBlocks aes c rest).1 ++ tail) rest.length c pre.length acc
        = .ok (acc ++ rest) (encBlocks aes c rest).2 := by
  intro N
  induction N with
  | zero =>
    intro rest h c pre tail acc htail
    have hd : rest = [] := List.length_eq_zero.mp (Nat.le_zero.mp h)
    subst hd
    rw [encBlocks_nil, decLoop]
    simp [htail]
  | succ N ih =>
    intro rest h c pre tail acc htail
    by_cases hd : rest = []
    · subst hd
      rw [encBlocks_nil, decLoop]
      simp [htail]
    · have hlen : 0 < rest.length := List.length_pos.mpr hd
      rw [encBlocks_cons aes c rest hd]
      have htk16 : (rest.take 16).length ≤ 16 := by simp [List.length_take]
      have hpad : (padTo 16 (rest.take 16)).length = 16 := length_padTo 16 _ htk16
      have hB : (zipXor (padTo 16 (rest.take 16)) (cipherBlock aes c)).length = 16 := by
        rw [length_zipXor, hpad, length_cipherBlock aes haes]
        exact Nat.min_self 16
      rw [decLoop]
      rw [dif_neg (by omega : ¬ rest.length = 0)]
      have hdatalen :
          (pre ++ (zipXor (padTo 16 (rest.take 16)) (cipherBlock aes c) ++
            (encBlocks aes ((c + 1) % M32) (rest.drop 16)).1) ++ tail).length
          = pre.length + 16 +
            ((encBlocks aes ((c + 1) % M32) (rest.drop 16)).1).length + 32 := by
        simp [List.length_append, hB, htail]
        omega
      rw [if_pos (by rw [hdatalen]; omega)]
      have hslice :
          slice (pre ++ (zipXor (padTo 16 (rest.take 16)) (cipherBlock aes c) ++
            (encBlocks aes ((c + 1) % M32) (rest.drop 16)).1) ++ tail) pre.length 16
          = zipXor (padTo 16 (rest.take 16)) (cipherBlock aes c) := by
        unfold slice
        rw [List.append_assoc, List.drop_left, List.append_assoc,
          List.take_left' hB]
      rw [hslice]
      rw [zipXor_zipXor_cancel _ _ (by rw [hpad, length_cipherBlock aes haes])]
      have htake : (padTo 16 (rest.take 16)).take (min rest.length 16) = rest.take 16 := by
        have : min rest.length 16 = (rest.take 16).length := by
          simp [List.length_take, Nat.min_comm]
        rw [this, take_length_padTo]
      rw [htake]
      have hpre16 : pre.length + 16 =
          (pre ++ zipXor (padTo 16 (rest.take 16)) (cipherBlock aes c)).length := by
        rw [List.length_append, hB]
      have hreassoc :
          pre ++ (zipXor (padTo 16 (rest.take 16)) (cipherBlock aes c) ++
            (encBlocks aes ((c + 1) % M32) (rest.drop 16)).1) ++ tail
          = (pre ++ zipXor (padTo 16 (rest.take 16)) (cipherBlock aes c)) ++
            (encBlocks aes ((c + 1) % M32) (rest.drop 16)).1 ++ tail := by
        simp [List.append_assoc]
      have hlendrop : rest.length - min rest.length 16 = (rest.drop 16).length := by
        rw [List.length_drop]; omega
      rw [hreassoc, hpre16, hlendrop]
      have hrec := ih (rest.drop 16) (by rw [List.length_drop]; omega) ((c + 1) % M32)
        (pre ++ zipXor (padTo 16 (rest.take 16)) (cipherBlock aes c)) tail
        (acc ++ rest.take 16) htail
      rw [hrec]
      rw [List.append_assoc, List.take_append_drop]

theorem decryptBlocks_eq (aes : List Nat → List Nat) (data : List Nat)
    (counter : Nat) :
    decryptBlocks aes data counter
      = decLoop aes data
          (readBE32 (zipXor (slice data 4 16) (cipherBlock aes counter))
            - min (readBE32 (zipXor (slice data 4 16) (cipherBlock aes counter))) 12)
          ((counter + 1) % M32) 20
          (((zipXor (slice data 4 16) (cipherBlock aes counter)).drop 4).take
            (min (readBE32 (zipXor (slice data 4 16) (cipherBlock aes counter))) 12)) :=
  rfl

theorem encryptInto_fst (aes mac : List Nat → List Nat) (data : List Nat) (c : Nat) :
    (encryptInto aes mac data c).1
      = (be32 (c % M32)
          ++ zipXor (padTo 16 (be32 data.length ++ data.take 12))
               (cipherBlock aes (c % M32))
          ++ (encBlocks aes ((c % M32 + 1) % M32) (data.drop 12)).1)
        ++ mac (be32 (c % M32)
          ++ zipXor (padTo 16 (be32 data.length ++ data.take 12))
               (cipherBlock aes (c % M32))
          ++ (encBlocks aes ((c % M32 + 1) % M32) (data.drop 12)).1) :=
  rfl

/-- **C3.**  Codec round-trip: decrypting the result of
`encrypt(plaintext, counter)` with `min_counter = counter` succeeds and returns
the original plaintext together with the new counter value
`counter + ceil((len(plaintext)+4)/16)` (in wrapping `u32` arithmetic, i.e.
modulo `2^32`); the counter advances by exactly the number of 16-byte
ciphertext blocks produced.  `aes`/`mac` are the keyed external primitives
(AES-128 with `encrypt_key`, HMAC-SHA-256 with `mac_key`), so the quantification
over them covers every key pair. -/
theorem crypto_roundtrip (aes mac : List Nat → List Nat)
    (haes : ∀ x, (aes x).length = 16) (hmac : ∀ x, (mac x).length = 32)
    (data : List Nat) (c : Nat) (hlen : data.length < M32) (hc : c < M32) :
    decryptInto aes mac (encryptInto aes mac data c).1 c
      = .ok data ((c + (data.length + 4 + 15) / 16) % M32) := by
  have hcmod : c % M32 = c := Nat.mod_eq_of_lt hc
  have htk12 : (be32 data.length ++ data.take 12).length ≤ 16 := by
    simp [List.length_append, length_be32, List.length_take]
    omega
  have hpad : (padTo 16 (be32 data.length ++ data.take 12)).length = 16 :=
    length_padTo 16 _ htk12
  rw [encryptInto_fst, hcmod]
  set B := zipXor (padTo 16 (be32 data.length ++ data.take 12)) (cipherBlock aes c)
    with hBdef
  have hF : B.length = 16 := by
    rw [hBdef, length_zipXor, hpad, length_cipherBlock aes haes]
    exact Nat.min_self 16
  set R := (encBlocks aes ((c + 1) % M32) (data.drop 12)).1 with hRdef
  have hRlen : R.length = 16 * (((data.drop 12).length + 15) / 16) :=
    encBlocks_length_bounded aes haes (data.drop 12).length _ _ le_rfl
  set m := mac (be32 c ++ B ++ R) with hm
  have hmlen : m.length = 32 := by rw [hm]; exact hmac _
  have hElen : ((be32 c ++ B ++ R) ++ m).length = 52 + R.length := by
    simp [List.length_append, length_be32, hF, hmlen]
    omega
  rw [decryptInto]
  rw [if_neg (by rw [hElen]; omega)]
  rw [if_neg (by rw [hElen]; omega)]
  have hsub : ((be32 c ++ B ++ R) ++ m).length - 32 = (be32 c ++ B ++ R).length := by
    rw [List.length_append, hmlen]
    omega
  rw [if_neg (by rw [hsub, List.take_left, List.drop_left]
                 exact not_not_intro hm.symm)]
  have hread : readBE32 ((be32 c ++ B ++ R) ++ m) = c := by
    simp only [List.append_assoc]
    exact readBE32_be32_append c hc _
  rw [if_neg (by rw [hread]; omega)]
  rw [hread, decryptBlocks_eq]
  have hslice : slice ((be32 c ++ B ++ R) ++ m) 4 16 = B := by
    unfold slice
    simp only [List.append_assoc]
    rw [show (4 : Nat) = (be32 c).length from rfl, List.drop_left]
    exact List.take_left' hF
  rw [hslice, hBdef, zipXor_zipXor_cancel _ _
    (by rw [hpad, length_cipherBlock aes haes])]
  have hlenread : readBE32 (padTo 16 (be32 data.length ++ data.take 12))
      = data.length := by
    unfold padTo
    simp only [List.append_assoc]
    exact readBE32_be32_append data.length hlen _
  rw [hlenread]
  have hacc : ((padTo 16 (be32 data.length ++ data.take 12)).drop 4).take
      (min data.length 12) = data.take 12 := by
    rw [show (4 : Nat) = (be32 data.length).length from rfl,
      drop_padTo_append]
    have hmin : min data.length 12 = (data.take 12).length := by
      simp [List.length_take, Nat.min_comm]
    rw [hmin, take_length_padTo]
  rw [hacc]
  have hlendrop : data.length - min data.length 12 = (data.drop 12).length := by
    simp [List.length_drop]
    omega
  rw [hlendrop]
  have hDL := decLoop_encBlocks aes haes (data.drop 12).length (data.drop 12) le_rfl
    ((c + 1) % M32) (be32 c ++ B) m (data.take 12) hmlen
  rw [show (be32 c ++ B).length = 20 from by simp [List.length_append, length_be32, hF]]
    at hDL
  rw [List.take_append_drop] at hDL
  rw [← hRdef] at hDL
  rw [show (be32 c ++ B) ++ R ++ m = (be32 c ++ B ++ R) ++ m from by
    simp [List.append_assoc]] at hDL
  rw [hDL]
  have hctr := encBlocks_counter_bounded aes (data.drop 12).length ((c + 1) % M32)
    (data.drop 12) le_rfl (Nat.mod_lt _ (by norm_num [M32]))
  rw [hctr, Nat.mod_add_mod]
  have harith : c + 1 + ((data.drop 12).length + 15) / 16
      = c + (data.length + 4 + 15) / 16 := by
    rw [List.length_drop]
    omega
  rw [harith]

/-- Witness: `crypto_roundtrip` applied at a concrete keystream, MAC, plaintext
`[1,2,3]` and counter 5: one block, so the counter advances to 6. -/
theorem crypto_roundtrip_witness :
    decryptInto aesZero macZero (encryptInto aesZero macZero [1, 2, 3] 5).1 5
      = .ok [1, 2, 3] 6 := by
  have h := crypto_roundtrip aesZero macZero (fun _ => rfl) (fun _ => rfl) [1, 2, 3] 5
    (by norm_num [M32]) (by norm_num [M32])
  norm_num [M32] at h
  exact h

/-- **C4.**  `decrypt_into` rejects (returns `None`) whenever the input is shorter
than `4 + 16 + 32` bytes, whenever `len mod 16 ≠ 4` (equivalently
`(len − 4 − 32) mod 16 ≠ 0`), whenever the HMAC over
`initial_counter ‖ ciphertext` does not match the trailing 32 bytes — with no
hypothesis on the counter, since the MAC is checked before the counter — and
whenever the embedded big-endian initial counter is below `min_counter`; in
particular `decrypt(datagram, min_counter = c + 1)` rejects any datagram whose
initial counter is `c`. -/
theorem decrypt_reject_conditions (aes mac : List Nat → List Nat)
    (data : List Nat) (minCounter : Nat) :
    (data.length < 4 + 16 + 32 → decryptInto aes mac data minCounter = .reject) ∧
    (data.length % 16 ≠ 4 → decryptInto aes mac data minCounter = .reject) ∧
    (mac (data.take (data.length - 32)) ≠ data.drop (data.length - 32) →
      decryptInto aes mac data minCounter = .reject) ∧
    (readBE32 data < minCounter → decryptInto aes mac data minCounter = .reject) ∧
    (minCounter = readBE32 data + 1 → decryptInto aes mac data minCounter = .reject) := by
  unfold decryptInto
  refine ⟨fun h1 => ?_, fun h2 => ?_, fun h3 => ?_, fun h4 => ?_, fun h5 => ?_⟩ <;>
    split_ifs <;> first | rfl | omega | contradiction

/-- Witness: the empty datagram is rejected via the length condition of
`decrypt_reject_conditions`. -/
theorem decrypt_reject_conditions_witness :
    decryptInto aesZero macZero [] 0 = .reject :=
  (decrypt_reject_conditions aesZero macZero [] 0).1 (by norm_num)

/-- **C7** fails on the code: a 52-byte datagram that passes the length and MAC
checks but whose (authenticated) embedded length field reads 45 — more 16-byte
blocks than the datagram holds — drives `pos` past the end of the buffer, and the
slice expression `&data[pos..pos + SIZE]` panics instead of rejecting.  Here the
keystream is `aesZero` and the constant-tag `macZero` authenticates the forged
length field, standing for an attacker (or key-holder) who can produce a valid
MAC. -/
theorem decrypt_length_overrun_panics :
    decryptInto aesZero macZero
      (be32 0 ++ (be32 45 ++ List.replicate 12 0) ++ List.replicate 32 0) 0
      = .panicked := by
  simp +decide [decryptInto, decryptBlocks_eq, decLoop, aesZero, macZero, be32,
    readBE32, slice, zipXor, padTo, cipherBlock, M32]

/-! ## Hash functions (`src/hash.rs`) and the `fxhash` crate -/

/-- The 64-bit seed of the external `fxhash` crate. -/
def FXSEED : Nat := 0x517cc1b727220a95

/-- One `hash_word` step of `fxhash::FxHasher` on 64-bit state: rotate left by 5,
xor the word in, multiply by the seed (wrapping `u64` arithmetic).  For `h < 2^64`
the rotation is `(h * 32 + h / 2^59) % 2^64` (the two parts occupy disjoint
bits). -/
def hashWord (h w : Nat) : Nat :=
  ((h * 32 + h / 2 ^ 59) % M64 ^^^ w) * FXSEED % M64

/-- `compute_hash`: the five-input bucket-selection mixer.  `src/hash.rs` in the
tree is an older four-argument snapshot `(level, group, replica, idx)` without
`attempt`, while `src/storage_map.rs` calls a five-argument
`compute_hash(level, group_id, replica_num, attempt, idx)` that no file under
`src/` defines.  Modelled from the spec: "a non-cryptographic integer mixer
producing 32-bit outputs from `(level, group, replica, attempt, index)`",
realised with the same `FxHasher` construction `src/hash.rs` uses — one
`write_u32` (= one `hash_word`) per argument in call order, `finish` truncated
to 32 bits. -/
def computeHash (level group replica attempt idx : Nat) : Nat :=
  hashWord (hashWord (hashWord (hashWord (hashWord 0 level) group) replica) attempt)
    idx % M32

/-- Little-endian value of a byte list (native-endian reads of `fxhash` on
little-endian targets). -/
def leVal (l : List Nat) : Nat := l.foldr (fun b acc => b + 256 * acc) 0

/-- The 64-bit `write` of `fxhash::FxHasher` (external crate): words of 8 bytes,
then 4, then 2, then 1, each read little-endian and fed to `hash_word`. -/
def fxWrite : Nat → List Nat → Nat
  | h, b0 :: b1 :: b2 :: b3 :: b4 :: b5 :: b6 :: b7 :: rest =>
      fxWrite (hashWord h (leVal [b0, b1, b2, b3, b4, b5, b6, b7])) rest
  | h, [b0, b1, b2, b3, b4, b5, b6] =>
      hashWord (hashWord (hashWord h (leVal [b0, b1, b2, b3])) (leVal [b4, b5])) b6
  | h, [b0, b1, b2, b3, b4, b5] =>
      hashWord (hashWord h (leVal [b0, b1, b2, b3])) (leVal [b4, b5])
  | h, [b0, b1, b2, b3, b4] => hashWord (hashWord h (leVal [b0, b1, b2, b3])) b4
  | h, [b0, b1, b2, b3] => hashWord h (leVal [b0, b1, b2, b3])
  | h, [b0, b1, b2] => hashWord (hashWord h (leVal [b0, b1])) b2
  | h, [b0, b1] => hashWord h (leVal [b0, b1])
  | h, [b0] => hashWord h b0
  | h, [] => h

/-- `compute_object_hash` from `src/hash.rs`: `FxHasher` over the object-id bytes,
`finish` truncated to 32 bits. -/
def computeObjectHash (objectId : List Nat) : Nat := fxWrite 0 objectId % M32

/-! ## Storage map (`src/storage_map.rs`) -/

/-- `DeviceId` (`src/lib.rs`): 16 opaque bytes, equality and hashability. -/
structure DeviceId where
  bytes : List Nat
deriving DecidableEq, Repr

/-- `PickMode` from `src/storage_map.rs`. -/
inductive PickMode where
  | pseudoRandom : PickMode
  | neverRepeat : PickMode
deriving DecidableEq, Repr

/-- `Algorithm` from `src/storage_map.rs`. -/
inductive Algorithm where
  | uniform : Algorithm
  | straw : List Nat → Algorithm
  | list : Algorithm
  | fallback : Algorithm
deriving DecidableEq, Repr

/-- `Node` from `src/storage_map.rs`; the `Bucket` struct's fields
(`id`, `algorithm`, `pick_mode`, `children`) are inlined into the `bucket`
constructor, and a `NodeEntry { weight, node }` is a `(weight, node)` pair. -/
inductive Node where
  | device : DeviceId → Node
  | bucket : (id : Nat) → (algorithm : Algorithm) → (pickMode : PickMode) →
      (children : List (Nat × Node)) → Node

/-- `StorageMap` from `src/storage_map.rs` (`groups` is a Rust `usize`). -/
structure StorageMap where
  generation : Nat
  groups : Nat
  replicas : Nat
  mapRoot : Node

/-- `StorageMap::object_to_group`: `compute_object_hash(o) % (groups as u32)`.
`as u32` truncates, and the Rust `%` operator panics when the divisor is zero
(i.e. when `groups % 2^32 = 0`, in particular `groups = 0`); the panic is
modelled by `none`. -/
def objectToGroup (m : StorageMap) (objectId : List Nat) : Option Nat :=
  if m.groups % M32 = 0 then none
  else some (computeObjectHash objectId % (m.groups % M32))

/-- The `for (i, child) in children[0..len-1]` walk of the `List` algorithm:
pick `i` when `hash < weight_i`, else subtract and continue; the last child is
the fallback. -/
def listWalk : List Nat → Nat → Nat → Nat → Nat
  | [], _, _, last => last
  | w :: rest, h, i, last => if h < w then i else listWalk rest (h - w) (i + 1) last

/-- The `for i in 1..children.len()` arg-max loop of the `Straw` algorithm.
`none` models a Rust panic: `factors[i]` out of bounds, or `hash % 0` when a
factor is zero. -/
def strawLoop (group replica level attempt : Nat) (factors : List Nat) :
    Nat → Nat → Nat → Nat → Option Nat
  | 0, _, best, _ => some best
  | count + 1, i, best, bestStraw =>
      match factors.get? i with
      | none => none
      | some w =>
          if w = 0 then none
          else if computeHash level group replica attempt i % w > bestStraw then
            strawLoop group replica level attempt factors count (i + 1) i
              (computeHash level group replica attempt i % w)
          else
            strawLoop group replica level attempt factors count (i + 1) best bestStraw

/-- `draw_straw` for index 0 followed by the arg-max loop (`Straw` branch of
`compute_location_in_bucket`). -/
def strawPick (group replica level attempt : Nat) (factors : List Nat)
    (nChildren : Nat) : Option Nat :=
  match factors.get? 0 with
  | none => none
  | some w0 =>
      if w0 = 0 then none
      else
        strawLoop group replica level attempt factors (nChildren - 1) 1 0
          (computeHash level group replica attempt 0 % w0)

/-- `compute_location_in_bucket` from `src/storage_map.rs`: the per-algorithm
child-index selection.  `none` models a Rust panic inside the selection itself
(`hash % 0` for an empty Uniform bucket or a zero total List weight, straw-factor
issues); the child access `bucket.children[index]` is bounds-checked by the
caller. -/
def computeIndexInBucket (alg : Algorithm) (children : List (Nat × Node))
    (group replica level attempt : Nat) : Option Nat :=
  match alg with
  | .uniform =>
      if children.length = 0 then none
      else some (computeHash level group replica attempt 0 % children.length)
  | .list =>
      let total := (children.map Prod.fst).sum
      if total = 0 then none
      else
        some (listWalk (children.map Prod.fst).dropLast
          (computeHash level group replica attempt 0 % total) 0
          (children.length - 1))
  | .straw factors => strawPick group replica level attempt factors children.length
  | .fallback => some attempt

/-- Result of one `compute_location` traversal: `found` is `Some(device)`,
`exhausted` is `return None` ("no more replicas", from the `NeverRepeat` check),
`panicked` marks a Rust panic (`children[index]` out of bounds or a panic inside
index selection), and `fuelOut` means the modelled fuel ran out — the source
`loop` has no such case, so reaching it proves nothing about the source except
that the traversal ran at least that many steps. -/
inductive LocRes where
  | found : DeviceId → LocRes
  | exhausted : LocRes
  | panicked : LocRes
  | fuelOut : LocRes
deriving DecidableEq, Repr

/-- `compute_location` from `src/storage_map.rs`.  The mutated
`already_picked : HashSet<(u32, u32)>` is threaded explicitly as a list of
pairs.  The source's inner `loop` (with its local `let mut attempt = 0`) is
encoded by the extra `attempt` parameter: every caller passes 0, and a loop
iteration is a self-call on the same bucket with `attempt + 1`.  One unit of
fuel is consumed per call, i.e. per loop iteration and per tree descent; a
bucket case at fuel `f + 1` performs the `NeverRepeat` pre-check over all child
indices, the index selection, the `NeverRepeat` marking with retry on
`was_already_marked`, and the bounds-checked recursion into the chosen child
(`bucket.children[index]` panics out of bounds). -/
def computeLocation : Nat → Node → Nat → Nat → Nat → Nat → List (Nat × Nat) →
    LocRes × List (Nat × Nat)
  | 0, _, _, _, _, _, picked => (.fuelOut, picked)
  | _ + 1, .device d, _, _, _, _, picked => (.found d, picked)
  | fuel + 1, .bucket id alg pm children, group, replica, level, attempt, picked =>
      if pm == PickMode.neverRepeat &&
          (List.range children.length).any (fun i => picked.contains (id, i)) then
        (.exhausted, picked)
      else
        match computeIndexInBucket alg children group replica level attempt with
        | none => (.panicked, picked)
        | some index =>
            if pm == PickMode.neverRepeat && picked.contains (id, index) then
              computeLocation fuel (.bucket id alg pm children) group replica level
                (attempt + 1) picked
            else
              match children.get? index with
              | none => (.panicked,
                  if pm == PickMode.neverRepeat then (id, index) :: picked else picked)
              | some (_, child) =>
                  match computeLocation fuel child group replica (level + 1) 0
                      (if pm == PickMode.neverRepeat then (id, index) :: picked
                       else picked) with
                  | (.found d, picked2) => (.found d, picked2)
                  | (.exhausted, picked2) =>
                      computeLocation fuel (.bucket id alg pm children) group replica level
                        (attempt + 1) picked2
                  | (.panicked, picked2) => (.panicked, picked2)
                  | (.fuelOut, picked2) => (.fuelOut, picked2)

/-- Result of `group_to_devices`: the device list, or a propagated panic, or
fuel exhaustion. -/
inductive GDRes where
  | ok : List DeviceId → GDRes
  | panicked : GDRes
  | fuelOut : GDRes
deriving DecidableEq, Repr

/-- The `for i in 0..replicas` loop of `StorageMap::group_to_devices`:
`already_picked` is carried across replica calls; a `None` from
`compute_location` stops the loop (`break`), keeping the devices gathered so
far. -/
def gtdLoop (fuel : Nat) (root : Node) (group : Nat) :
    Nat → Nat → List DeviceId → List (Nat × Nat) → GDRes
  | 0, _, devices, _ => .ok devices
  | count + 1, i, devices, picked =>
      match computeLocation fuel root group i 0 0 picked with
      | (.found d, picked2) => gtdLoop fuel root group count (i + 1) (devices ++ [d]) picked2
      | (.exhausted, _) => .ok devices
      | (.panicked, _) => .panicked
      | (.fuelOut, _) => .fuelOut

/-- `StorageMap::group_to_devices` from `src/storage_map.rs`. -/
def groupToDevices (fuel : Nat) (m : StorageMap) (group : Nat) (replicas : Nat) :
    GDRes :=
  gtdLoop fuel m.mapRoot group replicas 0 [] []

/-- `StorageMap::group_to_first_device` from `src/storage_map.rs`. -/
def groupToFirstDevice (fuel : Nat) (m : StorageMap) (group : Nat) :
    LocRes × List (Nat × Nat) :=
  computeLocation fuel m.mapRoot group 0 0 0 []

/-- **C1** fails on the code (code bug): on a `NeverRepeat` Uniform bucket with
two distinct device children, `group_to_devices(g, 2)` returns a single device
instead of two.  The pre-check at `storage_map.rs:94-100` returns `None` as soon
as *any* child of the bucket is in `already_picked` — although its own comment
says "Check that there are still children to be picked" — so the second replica
aborts immediately instead of retrying with an incremented attempt, and the
retry branch below the check (`was_already_marked`) is dead code. -/
theorem groupToDevices_neverRepeat_early_exhaustion :
    groupToDevices 100
      ⟨1, 128, 2, .bucket 0 .uniform .neverRepeat
        [(1, .device ⟨List.replicate 16 1⟩), (1, .device ⟨List.replicate 16 2⟩)]⟩
      0 2
      = .ok [⟨List.replicate 16 1⟩] := by decide

/-- **C5.** (spec-modelled, see `computeHash`.)  The bucket-selection hash takes
all five of `(level, group, replica, attempt, index)` and mixes each into its
32-bit output: for a Uniform bucket with `n ≠ 0` children the selected child
index is exactly `hash(level, group, replica, attempt, 0) mod n`, and for each of
the five arguments there are two inputs differing only in that argument with
different outputs — in particular two draws that differ only in `attempt` are
hashes of different input tuples with different values here. -/
theorem computeHash_five_inputs_uniform :
    (∀ (children : List (Nat × Node)) (group replica level attempt : Nat),
      children.length ≠ 0 →
      computeIndexInBucket .uniform children group replica level attempt
        = some (computeHash level group replica attempt 0 % children.length)) ∧
    computeHash 0 0 0 0 0 ≠ computeHash 1 0 0 0 0 ∧
    computeHash 0 0 0 0 0 ≠ computeHash 0 1 0 0 0 ∧
    computeHash 0 0 0 0 0 ≠ computeHash 0 0 1 0 0 ∧
    computeHash 0 0 0 0 0 ≠ computeHash 0 0 0 1 0 ∧
    computeHash 0 0 0 0 0 ≠ computeHash 0 0 0 0 1 := by
  refine ⟨?_, by decide, by decide, by decide, by decide, by decide⟩
  intro children group replica level attempt h
  simp [computeIndexInBucket, h]

/-- Witness: the Uniform selection rule of `computeHash_five_inputs_uniform`
instantiated at a singleton bucket. -/
theorem computeHash_five_inputs_uniform_witness :
    computeIndexInBucket .uniform [(1, .device ⟨List.replicate 16 1⟩)] 7 0 0 3
      = some (computeHash 0 7 0 3 0 % 1) :=
  computeHash_five_inputs_uniform.1 [(1, .device ⟨List.replicate 16 1⟩)] 7 0 0 3
    (by decide)

/-- **C9** fails as stated: with `groups = 0` — and the spec states no side
condition on `m.groups` — `object_to_group` hits `h % (0 as u32)`, a Rust panic
(modelled `none`), so it returns no group id at all; and `[0, 0)` is empty, so
no return value could satisfy the claim either. -/
theorem objectToGroup_groups_zero_cex :
    objectToGroup ⟨1, 0, 1, Node.device ⟨List.replicate 16 1⟩⟩ [1] = none ∧
    ¬ ∃ g, objectToGroup ⟨1, 0, 1, Node.device ⟨List.replicate 16 1⟩⟩ [1] = some g ∧
        g < 0 :=
  ⟨by decide, fun ⟨g, _, hlt⟩ => absurd hlt (Nat.not_lt_zero g)⟩

/-- **C9 amended**: for every map whose group count is nonzero modulo `2^32`
(in particular any `1 ≤ groups < 2^32`; `groups = 0` panics on `% 0`),
`object_to_group` returns a group id strictly below `m.groups`. -/
theorem objectToGroup_lt_groups (m : StorageMap) (o : List Nat)
    (h : m.groups % M32 ≠ 0) :
    ∃ g, objectToGroup m o = some g ∧ g < m.groups := by
  refine ⟨computeObjectHash o % (m.groups % M32), ?_, ?_⟩
  · simp [objectToGroup, h]
  · exact lt_of_lt_of_le (Nat.mod_lt _ (Nat.pos_of_ne_zero h)) (Nat.mod_le _ _)

/-- Witness: `objectToGroup_lt_groups` at a 128-group map and a concrete
object id. -/
theorem objectToGroup_lt_groups_witness :
    ∃ g, objectToGroup ⟨1, 128, 1, Node.device ⟨List.replicate 16 1⟩⟩ [42] = some g ∧
      g < 128 :=
  objectToGroup_lt_groups ⟨1, 128, 1, Node.device ⟨List.replicate 16 1⟩⟩ [42]
    (by decide)

/-- **C6** fails as stated: a map that is well-formed in the claim's sense (every
bucket has at least one child, no List bucket) whose Fallback root holds a single
NeverRepeat child bucket.  The second replica finds the inner bucket "exhausted",
the Fallback retry then selects `index = attempt = 1`, and `bucket.children[1]`
panics out of bounds — instead of terminating with "no more replicas". -/
theorem computeLocation_fallback_oob_cex :
    groupToDevices 100
      ⟨1, 128, 2, .bucket 0 .fallback .pseudoRandom
        [(1, .bucket 1 .uniform .neverRepeat [(1, .device ⟨List.replicate 16 1⟩)])]⟩
      0 2
      = .panicked := by decide

/-! ### Well-formedness for the amended C6 -/

/-- Bucket-local well-formedness: nonempty children; a `List` bucket has positive
total weight; a `Straw` bucket has a positive factor for every child index. -/
def bucketWF (alg : Algorithm) (children : List (Nat × Node)) : Bool :=
  !children.isEmpty &&
    (match alg with
     | .list => decide (0 < (children.map Prod.fst).sum)
     | .straw factors =>
         (List.range children.length).all fun i =>
           match factors.get? i with
           | some w => decide (0 < w)
           | none => false
     | _ => true)

mutual

/-- Recursive well-formedness of a node. -/
def nodeWF : Node → Bool
  | .device _ => true
  | .bucket _ alg _ children => bucketWF alg children && childrenWF children

/-- Well-formedness of every child node. -/
def childrenWF : List (Nat × Node) → Bool
  | [] => true
  | (_, n) :: rest => nodeWF n && childrenWF rest

end

mutual

/-- No bucket anywhere in the node uses `NeverRepeat`. -/
def nodeNoNR : Node → Bool
  | .device _ => true
  | .bucket _ _ pm children => pm == PickMode.pseudoRandom && childrenNoNR children

/-- No `NeverRepeat` in any child node. -/
def childrenNoNR : List (Nat × Node) → Bool
  | [] => true
  | (_, n) :: rest => nodeNoNR n && childrenNoNR rest

end

mutual

/-- Size measure of a node, used as a sufficient fuel bound. -/
def nsize : Node → Nat
  | .device _ => 1
  | .bucket _ _ _ children => 2 + csize children

/-- Total size of a child list. -/
def csize : List (Nat × Node) → Nat
  | [] => 0
  | (_, n) :: rest => nsize n + csize rest

end

theorem nsize_pos (node : Node) : 1 ≤ nsize node := by
  cases node <;> simp [nsize] <;> omega

theorem csize_bound : ∀ (children : List (Nat × Node)) (e : Nat × Node),
    e ∈ children → nsize e.2 ≤ csize children := by
  intro children
  induction children with
  | nil => intro e he; cases he
  | cons hd tl ih =>
    intro e he
    rcases List.mem_cons.mp he with h | h
    · subst h
      obtain ⟨w, n⟩ := e
      simp [csize] <;> omega
    · obtain ⟨w, n⟩ := hd
      have := ih e h
      simp [csize] <;> omega

theorem childrenWF_mem : ∀ (children : List (Nat × Node)),
    childrenWF children = true → ∀ e ∈ children, nodeWF e.2 = true := by
  intro children
  induction children with
  | nil => intro _ e he; cases he
  | cons hd tl ih =>
    obtain ⟨w, n⟩ := hd
    intro hwf e he
    simp only [childrenWF, Bool.and_eq_true] at hwf
    rcases List.mem_cons.mp he with h | h
    · subst h; exact hwf.1
    · exact ih hwf.2 e h

theorem childrenNoNR_mem : ∀ (children : List (Nat × Node)),
    childrenNoNR children = true → ∀ e ∈ children, nodeNoNR e.2 = true := by
  intro children
  induction children with
  | nil => intro _ e he; cases he
  | cons hd tl ih =>
    obtain ⟨w, n⟩ := hd
    intro hn e he
    simp only [childrenNoNR, Bool.and_eq_true] at hn
    rcases List.mem_cons.mp he with h | h
    · subst h; exact hn.1
    · exact ih hn.2 e h

theorem listWalk_cases : ∀ (weights : List Nat) (h i last : Nat),
    listWalk weights h i last = last ∨
      (i ≤ listWalk weights h i last ∧
        listWalk weights h i last < i + weights.length) := by
  intro weights
  induction weights with
  | nil => intro h i last; exact Or.inl rfl
  | cons w rest ih =>
    intro h i last
    by_cases hw : h < w
    · right
      simp only [listWalk, if_pos hw, List.length_cons]
      omega
    · simp only [listWalk, if_neg hw, List.length_cons]
      rcases ih (h - w) (i + 1) last with h1 | ⟨h2, h3⟩
      · exact Or.inl h1
      · exact Or.inr ⟨by omega, by omega⟩

theorem strawLoop_some_lt (group replica level attempt : Nat) (factors : List Nat) :
    ∀ (count i best bestStraw : Nat),
      (∀ j, i ≤ j → j < i + count → ∃ w, factors.get? j = some w ∧ 0 < w) →
      ∃ res, strawLoop group replica level attempt factors count i best bestStraw
          = some res ∧ (res = best ∨ (i ≤ res ∧ res < i + count)) := by
  intro count
  induction count with
  | zero => intro i best bs _; exact ⟨best, rfl, Or.inl rfl⟩
  | succ count ih =>
    intro i best bs hcov
    obtain ⟨w, hw, hwpos⟩ := hcov i le_rfl (by omega)
    simp only [strawLoop, hw]
    rw [if_neg (by omega)]
    by_cases hgt : computeHash level group replica attempt i % w > bs
    · rw [if_pos hgt]
      obtain ⟨res, hres, hcase⟩ := ih (i + 1) i
        (computeHash level group replica attempt i % w)
        (fun j hj1 hj2 => hcov j (by omega) (by omega))
      refine ⟨res, hres, ?_⟩
      rcases hcase with h | ⟨h1, h2⟩
      · exact Or.inr ⟨by omega, by omega⟩
      · exact Or.inr ⟨by omega, by omega⟩
    · rw [if_neg hgt]
      obtain ⟨res, hres, hcase⟩ := ih (i + 1) best bs
        (fun j hj1 hj2 => hcov j (by omega) (by omega))
      refine ⟨res, hres, ?_⟩
      rcases hcase with h | ⟨h1, h2⟩
      · exact Or.inl h
      · exact Or.inr ⟨by omega, by omega⟩

theorem bucketWF_nonempty (alg : Algorithm) (children : List (Nat × Node))
    (hwf : bucketWF alg children = true) : children ≠ [] := by
  intro h
  subst h
  simp [bucketWF] at hwf

theorem computeIndexInBucket_lt (alg : Algorithm) (children : List (Nat × Node))
    (group replica level : Nat) (hwf : bucketWF alg children = true) :
    ∃ idx, computeIndexInBucket alg children group replica level 0 = some idx ∧
      idx < children.length := by
  have hne : children ≠ [] := bucketWF_nonempty alg children hwf
  have hlen : 0 < children.length := List.length_pos.mpr hne
  cases alg with
  | uniform =>
      simp only [computeIndexInBucket]
      rw [if_neg (by omega)]
      exact ⟨_, rfl, Nat.mod_lt _ hlen⟩
  | list =>
      have htot : 0 < (children.map Prod.fst).sum := by
        simp only [bucketWF, Bool.and_eq_true, decide_eq_true_eq] at hwf
        exact hwf.2
      simp only [computeIndexInBucket]
      rw [if_neg (by omega)]
      refine ⟨_, rfl, ?_⟩
      have hdl : (children.map Prod.fst).dropLast.length = children.length - 1 := by
        simp [List.length_dropLast, List.length_map]
      rcases listWalk_cases (children.map Prod.fst).dropLast
        (computeHash level group replica 0 0 % (children.map Prod.fst).sum) 0
        (children.length - 1) with h | ⟨_, h2⟩
      · rw [h]; omega
      · omega
  | straw factors =>
      have hcov : ∀ j, j < children.length → ∃ w, factors.get? j = some w ∧ 0 < w := by
        intro j hj
        simp only [bucketWF, Bool.and_eq_true, List.all_eq_true] at hwf
        have := hwf.2 j (List.mem_range.mpr hj)
        cases hfj : factors.get? j with
        | none => rw [hfj] at this; cases this
        | some w =>
            rw [hfj] at this
            simp only [decide_eq_true_eq] at this
            exact ⟨w, rfl, this⟩
      obtain ⟨w0, hw0, hw0pos⟩ := hcov 0 hlen
      simp only [computeIndexInBucket, strawPick, hw0]
      rw [if_neg (by omega)]
      obtain ⟨res, hres, hcase⟩ := strawLoop_some_lt group replica level 0 factors
        (children.length - 1) 1 0 (computeHash level group replica 0 0 % w0)
        (fun j hj1 hj2 => hcov j (by omega))
      refine ⟨res, hres, ?_⟩
      rcases hcase with h | ⟨h1, h2⟩
      · omega
      · omega
  | fallback => exact ⟨0, rfl, hlen⟩

/-- **C6 amended.**  On a well-formed storage map (`nodeWF`: every bucket has at
least one child, List buckets have positive total weight, Straw buckets have a
positive factor for every child) that contains no `NeverRepeat` bucket
(`nodeNoNR`), the traversal `compute_location` terminates — with any fuel of at
least `nsize node` it neither runs out of fuel nor panics — never indexes a
child list out of bounds, and returns a device, leaving `already_picked`
untouched.  (With `NeverRepeat` buckets present the claim fails: see the
Fallback out-of-bounds counterexample.) -/
theorem computeLocation_wf_noNR_found :
    ∀ (N : Nat) (node : Node), nsize node ≤ N → nodeWF node = true →
      nodeNoNR node = true →
      ∀ (group replica level : Nat) (picked : List (Nat × Nat)) (fuel : Nat),
        nsize node ≤ fuel →
        ∃ d, computeLocation fuel node group replica level 0 picked
          = (.found d, picked) := by
  intro N
  induction N with
  | zero =>
    intro node hs
    exact absurd hs (by have := nsize_pos node; omega)
  | succ N ih =>
    intro node hs hwf hnr group replica level picked fuel hfuel
    cases node with
    | device d =>
        obtain ⟨f, rfl⟩ : ∃ f, fuel = f + 1 := by
          refine ⟨fuel - 1, ?_⟩
          have : 1 ≤ fuel := le_trans (by simp [nsize]) hfuel
          omega
        exact ⟨d, rfl⟩
    | bucket id alg pm children =>
        have hsz : nsize (.bucket id alg pm children) = 2 + csize children := rfl
        obtain ⟨f, rfl⟩ : ∃ f, fuel = f + 1 := by
          refine ⟨fuel - 1, ?_⟩
          rw [hsz] at hfuel
          omega
        have hpm : pm = PickMode.pseudoRandom := by
          cases pm
          · rfl
          · simp [nodeNoNR] at hnr
        subst hpm
        have hwf2 : bucketWF alg children = true ∧ childrenWF children = true := by
          simpa [nodeWF, Bool.and_eq_true] using hwf
        have hnr2 : childrenNoNR children = true := by
          simpa [nodeNoNR, Bool.and_eq_true] using hnr
        obtain ⟨idx, hidx, hlt⟩ :=
          computeIndexInBucket_lt alg children group replica level hwf2.1
        obtain ⟨w, child, hget, hmem⟩ :
            ∃ w child, children.get? idx = some (w, child) ∧ (w, child) ∈ children := by
          have hg := List.get?_eq_get hlt
          rcases he : children.get ⟨idx, hlt⟩ with ⟨w, child⟩
          refine ⟨w, child, by rw [hg, he], ?_⟩
          rw [← he]
          exact List.get_mem children idx hlt
        have hcb := csize_bound children (w, child) hmem
        have hN : nsize child ≤ N := by
          rw [hsz] at hs
          simpa using le_trans hcb (by omega)
        have hfc : nsize child ≤ f := by
          rw [hsz] at hfuel
          simpa using le_trans hcb (by omega)
        obtain ⟨d, hd⟩ := ih child hN
          (childrenWF_mem children hwf2.2 (w, child) hmem)
          (childrenNoNR_mem children hnr2 (w, child) hmem)
          group replica (level + 1) picked f hfc
        refine ⟨d, ?_⟩
        have hbeq : (PickMode.pseudoRandom == PickMode.neverRepeat) = false := rfl
        simp only [computeLocation, hidx, hget, hbeq, Bool.false_and, hd]
        simp [hd]

/-- Witness: `computeLocation_wf_noNR_found` at a two-device PseudoRandom Uniform
bucket with fuel 4 (= its size). -/
theorem computeLocation_wf_noNR_found_witness :
    ∃ d, computeLocation 4
      (.bucket 0 .uniform .pseudoRandom
        [(1, .device ⟨List.replicate 16 1⟩), (1, .device ⟨List.replicate 16 2⟩)])
      0 0 0 0 [] = (.found d, []) :=
  computeLocation_wf_noNR_found 4
    (.bucket 0 .uniform .pseudoRandom
      [(1, .device ⟨List.replicate 16 1⟩), (1, .device ⟨List.replicate 16 2⟩)])
    (by simp [nsize, csize]) (by simp [nodeWF, childrenWF, bucketWF])
    (by simp [nodeNoNR, childrenNoNR]) 0 0 0 [] 4 (by simp [nsize, csize])

/-! ## Daemon request router (`src/daemon.rs`) -/

/-- Spec-modelled: `StorageMap::group_to_device` is called by `src/daemon.rs`
(`get_location` line 201, `get_secondaries` line 179) and by `src/client.rs`,
but no file under `src/` defines it.  Modelled from the spec:
"`primary = map.group_to_devices(g,1)[0]`" and "Secondaries (replicas beyond
primary) are computed as `map.group_to_devices(g, replicas)[1..]`", i.e.
replica `i` is entry `i` of `group_to_devices(g, i+1)`.  `none` stands for a
replica the traversal did not produce (shortened replica set, panic, or fuel
exhaustion); the Rust comparisons against a concrete device then fail. -/
def groupToDevice (fuel : Nat) (m : StorageMap) (group : Nat) (replica : Nat) :
    Option DeviceId :=
  match groupToDevices fuel m group (replica + 1) with
  | .ok l => l.get? replica
  | _ => none

/-- `Pool` from `src/daemon.rs`. -/
inductive Pool where
  | normal : StorageMap → Pool
  | transitionPrepare : (current : StorageMap) → (next : StorageMap) → Pool
  | transition : (previous : StorageMap) → (current : StorageMap) → Pool

/-- The fields of `StorageDaemon` the request router reads: the daemon's own
device id, the pools keyed by pool name (UTF-8 bytes), and the peer roster
`storage_daemons` mapping device ids to addresses (addresses are opaque,
modelled as `Nat`). -/
structure DaemonState where
  deviceId : DeviceId
  pools : List (List Nat × Pool)
  storageDaemons : List (DeviceId × Nat)

/-- Errors of the request-handling path (`std::io::Error` values in the source;
`panicked` marks a Rust panic inside placement). -/
inductive HErr where
  | parseError : HErr
  | invalidPoolName : HErr
  | unknownPool : HErr
  | wrongDaemon : HErr
  | noAddress : HErr
  | unknownCommand : HErr
  | placementFailed : HErr
  | panicked : HErr
deriving DecidableEq, Repr

/-- `Location` from `src/daemon.rs`. -/
inductive Location where
  | hereOrFallback : Option (DeviceId × Nat) → List (DeviceId × Nat) → Location
  | forward : Nat → Location

/-- The `for replica_id in 1..replicas` loop of `get_secondaries`
(`src/daemon.rs:176-187`): look up each secondary's device (spec-modelled
`group_to_device`) and its peer address; a device absent from the roster is the
`NotFound` "No address for device" error that aborts the whole lookup. -/
def getSecondariesGo (fuel : Nat) (m : StorageMap) (daemons : List (DeviceId × Nat))
    (group : Nat) : Nat → Nat → Except HErr (List (DeviceId × Nat))
  | 0, _ => .ok []
  | count + 1, i =>
      match groupToDevice fuel m group i with
      | none => .error .placementFailed
      | some d =>
          match List.lookup d daemons with
          | none => .error .noAddress
          | some addr =>
              match getSecondariesGo fuel m daemons group count (i + 1) with
              | .ok rest => .ok ((d, addr) :: rest)
              | .error e => .error e

/-- `get_secondaries` from `src/daemon.rs`. -/
def getSecondaries (fuel : Nat) (m : StorageMap) (daemons : List (DeviceId × Nat))
    (group : Nat) : Except HErr (List (DeviceId × Nat)) :=
  getSecondariesGo fuel m daemons group (m.replicas - 1) 1

/-- `get_location` from `src/daemon.rs:189-252`: look up the pool state and
perform the placement check.  `Normal`: serve here (with secondaries) only when
the map's primary for the object's group is this daemon, else "Request was sent
to wrong daemon".  `TransitionPrepare`: serve here when `current`'s primary is
this daemon; forward to `current`'s primary when `next`'s primary is this
daemon; else wrong daemon.  `Transition`: serve here (with `previous`'s primary
as read-fallback peer) when `current`'s primary is this daemon, else wrong
daemon. -/
def getLocation (fuel : Nat) (D : DaemonState) (poolName obj : List Nat) :
    Except HErr Location :=
  match List.lookup poolName D.pools with
  | none => .error .unknownPool
  | some (.normal m) =>
      match objectToGroup m obj with
      | none => .error .panicked
      | some g =>
          if groupToDevice fuel m g 0 = some D.deviceId then
            match getSecondaries fuel m D.storageDaemons g with
            | .error e => .error e
            | .ok secs => .ok (.hereOrFallback none secs)
          else .error .wrongDaemon
  | some (.transitionPrepare current next) =>
      match objectToGroup current obj with
      | none => .error .panicked
      | some g =>
          if groupToDevice fuel current g 0 = some D.deviceId then
            match getSecondaries fuel current D.storageDaemons g with
            | .error e => .error e
            | .ok secs => .ok (.hereOrFallback none secs)
          else
            match objectToGroup next obj with
            | none => .error .panicked
            | some g2 =>
                if groupToDevice fuel next g2 0 = some D.deviceId then
                  match groupToDevice fuel current g 0 with
                  | none => .error .placementFailed
                  | some currentDevice =>
                      match List.lookup currentDevice D.storageDaemons with
                      | none => .error .noAddress
                      | some addr => .ok (.forward addr)
                else .error .wrongDaemon
  | some (.transition previous current) =>
      match objectToGroup current obj with
      | none => .error .panicked
      | some g =>
          if groupToDevice fuel current g 0 = some D.deviceId then
            match objectToGroup previous obj with
            | none => .error .panicked
            | some gp =>
                match groupToDevice fuel previous gp 0 with
                | none => .error .placementFailed
                | some previousDevice =>
                    match List.lookup previousDevice D.storageDaemons with
                    | none => .error .noAddress
                    | some addr =>
                        match getSecondaries fuel current D.storageDaemons g with
                        | .error e => .error e
                        | .ok secs =>
                            .ok (.hereOrFallback (some (previousDevice, addr)) secs)
          else .error .wrongDaemon

/-- Cursor read of a big-endian `u32` (`reader.read_u32::<BigEndian>()`); `none`
is the `Err` of a short read. -/
def rdU32 (msg : List Nat) (pos : Nat) : Option (Nat × Nat) :=
  if pos + 4 ≤ msg.length then some (readBE32 (msg.drop pos), pos + 4) else none

/-- Cursor `read_exact` of `n` bytes. -/
def rdBytes (msg : List Nat) (pos n : Nat) : Option (List Nat × Nat) :=
  if pos + n ≤ msg.length then some (slice msg pos n, pos + n) else none

/-- Cursor read of one byte (`read_u8`). -/
def rdU8 (msg : List Nat) (pos : Nat) : Option (Nat × Nat) :=
  if pos + 1 ≤ msg.length then some (msg.getD pos 0, pos + 1) else none

/-- A UTF-8 continuation byte. -/
def isCont (c : Nat) : Bool := decide (0x80 ≤ c ∧ c ≤ 0xBF)

/-- UTF-8 validity (RFC 3629), the check `String::from_utf8` performs on the
pool name. -/
def utf8Valid : List Nat → Bool
  | [] => true
  | b :: rest =>
      if b ≤ 0x7F then utf8Valid rest
      else if 0xC2 ≤ b ∧ b ≤ 0xDF then
        match rest with
        | c1 :: r => isCont c1 && utf8Valid r
        | [] => false
      else if b = 0xE0 then
        match rest with
        | c1 :: c2 :: r => decide (0xA0 ≤ c1 ∧ c1 ≤ 0xBF) && isCont c2 && utf8Valid r
        | _ => false
      else if (0xE1 ≤ b ∧ b ≤ 0xEC) ∨ b = 0xEE ∨ b = 0xEF then
        match rest with
        | c1 :: c2 :: r => isCont c1 && isCont c2 && utf8Valid r
        | _ => false
      else if b = 0xED then
        match rest with
        | c1 :: c2 :: r => decide (0x80 ≤ c1 ∧ c1 ≤ 0x9F) && isCont c2 && utf8Valid r
        | _ => false
      else if b = 0xF0 then
        match rest with
        | c1 :: c2 :: c3 :: r =>
            decide (0x90 ≤ c1 ∧ c1 ≤ 0xBF) && isCont c2 && isCont c3 && utf8Valid r
        | _ => false
      else if 0xF1 ≤ b ∧ b ≤ 0xF3 then
        match rest with
        | c1 :: c2 :: c3 :: r => isCont c1 && isCont c2 && isCont c3 && utf8Valid r
        | _ => false
      else if b = 0xF4 then
        match rest with
        | c1 :: c2 :: c3 :: r =>
            decide (0x80 ≤ c1 ∧ c1 ≤ 0x8F) && isCont c2 && isCont c3 && utf8Valid r
        | _ => false
      else false

/-- Observable effects of handling one client request: backend invocations
(in call order), the datagram sent back to the client, or a forward to a peer.
The internals of `forward_request` (counter rewriting, 5 s timeout) are outside
the claims about this router and are abstracted into the `forwardTo` effect. -/
inductive Effect where
  | backendReadObject : (pool obj : List Nat) → Effect
  | backendReadPart : (pool obj : List Nat) → (off len : Nat) → Effect
  | backendWriteObject : (pool obj data : List Nat) → Effect
  | backendWritePart : (pool obj : List Nat) → (off : Nat) → (data : List Nat) → Effect
  | backendDeleteObject : (pool obj : List Nat) → Effect
  | sendResponse : List Nat → Effect
  | forwardTo : Nat → Effect
deriving DecidableEq, Repr

/-- The backend adapter contract (§6 of the spec): reads are pure lookups;
writes and deletes always succeed (implementations are external, out of
scope). -/
structure Backend where
  readObject : List Nat → List Nat → Option (List Nat)
  readPart : List Nat → List Nat → Nat → Nat → Option (List Nat)

/-- `handle_client_request_inner` from `src/daemon.rs:254-404`: parse
`msg_counter`, `pool_name` (length-prefixed UTF-8), the opcode, then the
opcode-specific payload; opcodes 0x01–0x04 go through `get_location` before
touching the backend, 0x05 (`delete_object`) calls the backend directly.  The
0x01/0x02 replies are `counter | present | data`; 0x03/0x04/0x05 replies are
the bare counter. -/
def handleClientRequestInner (fuel : Nat) (D : DaemonState) (B : Backend)
    (msg : List Nat) : Except HErr (List Effect) :=
  match rdU32 msg 0 with
  | none => .error .parseError
  | some (msgCtr, p1) =>
  match rdU32 msg p1 with
  | none => .error .parseError
  | some (nameLen, p2) =>
  match rdBytes msg p2 nameLen with
  | none => .error .parseError
  | some (poolName, p3) =>
  if utf8Valid poolName = false then .error .invalidPoolName
  else
  match rdU8 msg p3 with
  | none => .error .parseError
  | some (cmd, p4) =>
  if cmd = 1 then
    match rdU32 msg p4 with
    | none => .error .parseError
    | some (objLen, p5) =>
    match rdBytes msg p5 objLen with
    | none => .error .parseError
    | some (obj, _) =>
    match getLocation fuel D poolName obj with
    | .error e => .error e
    | .ok (.hereOrFallback _ _) =>
        match B.readObject poolName obj with
        | some dataOut =>
            .ok [.backendReadObject poolName obj,
                 .sendResponse (be32 msgCtr ++ 1 :: dataOut)]
        | none =>
            .ok [.backendReadObject poolName obj, .sendResponse (be32 msgCtr ++ [0])]
    | .ok (.forward addr) => .ok [.forwardTo addr]
  else if cmd = 2 then
    match rdU32 msg p4 with
    | none => .error .parseError
    | some (objLen, p5) =>
    match rdBytes msg p5 objLen with
    | none => .error .parseError
    | some (obj, p6) =>
    match rdU32 msg p6 with
    | none => .error .parseError
    | some (off, p7) =>
    match rdU32 msg p7 with
    | none => .error .parseError
    | some (len, _) =>
    match getLocation fuel D poolName obj with
    | .error e => .error e
    | .ok (.hereOrFallback _ _) =>
        match B.readPart poolName obj off len with
        | some dataOut =>
            .ok [.backendReadPart poolName obj off len,
                 .sendResponse (be32 msgCtr ++ 1 :: dataOut)]
        | none =>
            .ok [.backendReadPart poolName obj off len,
                 .sendResponse (be32 msgCtr ++ [0])]
    | .ok (.forward addr) => .ok [.forwardTo addr]
  else if cmd = 3 then
    match rdU32 msg p4 with
    | none => .error .parseError
    | some (objLen, p5) =>
    match rdBytes msg p5 objLen with
    | none => .error .parseError
    | some (obj, p6) =>
    match getLocation fuel D poolName obj with
    | .error e => .error e
    | .ok (.hereOrFallback _ _) =>
        .ok [.backendWriteObject poolName obj (msg.drop p6),
             .sendResponse (be32 msgCtr)]
    | .ok (.forward addr) => .ok [.forwardTo addr]
  else if cmd = 4 then
    match rdU32 msg p4 with
    | none => .error .parseError
    | some (objLen, p5) =>
    match rdBytes msg p5 objLen with
    | none => .error .parseError
    | some (obj, p6) =>
    match rdU32 msg p6 with
    | none => .error .parseError
    | some (off, p7) =>
    match getLocation fuel D poolName obj with
    | .error e => .error e
    | .ok (.hereOrFallback _ _) =>
        .ok [.backendWritePart poolName obj off (msg.drop p7),
             .sendResponse (be32 msgCtr)]
    | .ok (.forward addr) => .ok [.forwardTo addr]
  else if cmd = 5 then
    match rdU32 msg p4 with
    | none => .error .parseError
    | some (objLen, p5) =>
    match rdBytes msg p5 objLen with
    | none => .error .parseError
    | some (obj, _) =>
        .ok [.backendDeleteObject poolName obj, .sendResponse (be32 msgCtr)]
  else .error .unknownCommand

/-- `handle_client_request` from `src/daemon.rs:158-167`: an `Err` from the
inner handler is logged, counted in the `invalid_requests` metric, and the
datagram is dropped with no reply.  Returns the effects performed and the
metric increment. -/
def handleClientRequest (fuel : Nat) (D : DaemonState) (B : Backend)
    (msg : List Nat) : List Effect × Nat :=
  match handleClientRequestInner fuel D B msg with
  | .ok effs => (effs, 0)
  | .error _ => ([], 1)

/-- Whenever `get_location` errors, the handler for opcodes 0x01–0x04 returns an
error after the placement check, and the outer handler drops the datagram with
no effects, counting one invalid request. -/
theorem inner_drops_on_getLocation_error (fuel : Nat) (D : DaemonState) (B : Backend)
    (msg : List Nat) (msgCtr p1 nameLen p2 p3 cmd p4 objLen p5 p6 : Nat)
    (poolName obj : List Nat) (e0 : HErr)
    (h1 : rdU32 msg 0 = some (msgCtr, p1))
    (h2 : rdU32 msg p1 = some (nameLen, p2))
    (h3 : rdBytes msg p2 nameLen = some (poolName, p3))
    (h4 : utf8Valid poolName = true)
    (h5 : rdU8 msg p3 = some (cmd, p4))
    (hcmd : cmd = 1 ∨ cmd = 2 ∨ cmd = 3 ∨ cmd = 4)
    (h6 : rdU32 msg p4 = some (objLen, p5))
    (h7 : rdBytes msg p5 objLen = some (obj, p6))
    (hloc : getLocation fuel D poolName obj = .error e0) :
    (∃ e, handleClientRequestInner fuel D B msg = .error e) ∧
    handleClientRequest fuel D B msg = ([], 1) := by
  have hinner : ∃ e, handleClientRequestInner fuel D B msg = .error e := by
    rcases hcmd with rfl | rfl | rfl | rfl
    · exact ⟨e0, by simp [handleClientRequestInner, h1, h2, h3, h4, h5, h6, h7, hloc]⟩
    · cases ho : rdU32 msg p6 with
      | none =>
          exact ⟨.parseError,
            by simp [handleClientRequestInner, h1, h2, h3, h4, h5, h6, h7, ho]⟩
      | some v =>
          obtain ⟨off, p7⟩ := v
          cases hl : rdU32 msg p7 with
          | none =>
              exact ⟨.parseError,
                by simp [handleClientRequestInner, h1, h2, h3, h4, h5, h6, h7, ho, hl]⟩
          | some v2 =>
              obtain ⟨len, p8⟩ := v2
              exact ⟨e0, by
                simp [handleClientRequestInner, h1, h2, h3, h4, h5, h6, h7, ho, hl, hloc]⟩
    · exact ⟨e0, by simp [handleClientRequestInner, h1, h2, h3, h4, h5, h6, h7, hloc]⟩
    · cases ho : rdU32 msg p6 with
      | none =>
          exact ⟨.parseError,
            by simp [handleClientRequestInner, h1, h2, h3, h4, h5, h6, h7, ho]⟩
      | some v =>
          obtain ⟨off, p7⟩ := v
          exact ⟨e0,
            by simp [handleClientRequestInner, h1, h2, h3, h4, h5, h6, h7, ho, hloc]⟩
  obtain ⟨e, he⟩ := hinner
  exact ⟨⟨e, he⟩, by simp [handleClientRequest, he]⟩

/-- A device the counterexamples route to (not the daemon itself). -/
def devA : DeviceId := ⟨List.replicate 16 1⟩

/-- The daemon's own device id in the concrete scenarios. -/
def devSelf : DeviceId := ⟨List.replicate 16 9⟩

/-- A single-replica map whose only (hence primary) device is `devA`. -/
def mapToDevA : StorageMap := ⟨1, 128, 1, .device devA⟩

/-- A daemon that is *not* the primary for pool `"p"` (`[112]`): the pool's map
routes everything to `devA`, while the daemon is `devSelf`. -/
def daemonMisdirected : DaemonState := ⟨devSelf, [([112], .normal mapToDevA)], []⟩

/-- A backend whose reads find nothing (writes/deletes are effects only). -/
def backendNone : Backend := ⟨fun _ _ => none, fun _ _ _ _ => none⟩

/-- **C2** fails as stated: a `delete_object` (0x05) request for pool `"p"` and
object `"abc"` is served by the local backend (and answered) although the pool
is `Normal` and the primary for the object's group is `devA ≠ devSelf` — the
0x05 branch of `handle_client_request_inner` never calls `get_location`. -/
theorem handle_delete_bypasses_placement :
    handleClientRequestInner 10 daemonMisdirected backendNone
        (be32 7 ++ be32 1 ++ [112] ++ [5] ++ be32 3 ++ [97, 98, 99])
      = .ok [.backendDeleteObject [112] [97, 98, 99], .sendResponse (be32 7)] ∧
    objectToGroup mapToDevA [97, 98, 99] = some 35 ∧
    groupToDevice 10 mapToDevA 35 0 = some devA ∧
    devA ≠ devSelf :=
  ⟨rfl, rfl, rfl, by decide⟩

/-- **C2 amended.**  For opcodes 0x01–0x04 the daemon looks up the pool state
and performs the placement check before invoking the backend: when the pool is
`Normal` and the primary computed from the map for the object's group is not
this daemon, the request produces an error and is dropped — no reply, no
backend invocation, one invalid-request count.  (Opcode 0x05, `delete_object`,
bypasses the placement check entirely: see the counterexample.) -/
theorem normal_misdirected_dropped (fuel : Nat) (D : DaemonState) (B : Backend)
    (msg : List Nat) (msgCtr p1 nameLen p2 p3 cmd p4 objLen p5 p6 g : Nat)
    (poolName obj : List Nat) (m : StorageMap)
    (h1 : rdU32 msg 0 = some (msgCtr, p1))
    (h2 : rdU32 msg p1 = some (nameLen, p2))
    (h3 : rdBytes msg p2 nameLen = some (poolName, p3))
    (h4 : utf8Valid poolName = true)
    (h5 : rdU8 msg p3 = some (cmd, p4))
    (hcmd : cmd = 1 ∨ cmd = 2 ∨ cmd = 3 ∨ cmd = 4)
    (h6 : rdU32 msg p4 = some (objLen, p5))
    (h7 : rdBytes msg p5 objLen = some (obj, p6))
    (hpool : List.lookup poolName D.pools = some (.normal m))
    (hg : objectToGroup m obj = some g)
    (hprim : groupToDevice fuel m g 0 ≠ some D.deviceId) :
    (∃ e, handleClientRequestInner fuel D B msg = .error e) ∧
    handleClientRequest fuel D B msg = ([], 1) := by
  have hloc : getLocation fuel D poolName obj = .error .wrongDaemon := by
    simp only [getLocation, hpool, hg]
    rw [if_neg hprim]
  exact inner_drops_on_getLocation_error fuel D B msg msgCtr p1 nameLen p2 p3 cmd p4
    objLen p5 p6 poolName obj .wrongDaemon h1 h2 h3 h4 h5 hcmd h6 h7 hloc

/-- Witness: a misdirected `read_object` (0x01) against `daemonMisdirected` is
dropped with one invalid-request count. -/
theorem normal_misdirected_dropped_witness :
    (∃ e, handleClientRequestInner 10 daemonMisdirected backendNone
        (be32 7 ++ be32 1 ++ [112] ++ [1] ++ be32 3 ++ [97, 98, 99]) = .error e) ∧
    handleClientRequest 10 daemonMisdirected backendNone
        (be32 7 ++ be32 1 ++ [112] ++ [1] ++ be32 3 ++ [97, 98, 99]) = ([], 1) :=
  normal_misdirected_dropped 10 daemonMisdirected backendNone
    (be32 7 ++ be32 1 ++ [112] ++ [1] ++ be32 3 ++ [97, 98, 99])
    7 4 1 8 9 1 10 3 14 17 35 [112] [97, 98, 99] mapToDevA
    rfl rfl rfl rfl rfl (Or.inl rfl) rfl rfl rfl rfl (by decide)

/-- `get_secondaries` errors whenever some replica index in the scanned range
has no roster address (or no device at all). -/
theorem getSecondariesGo_error (fuel : Nat) (m : StorageMap)
    (daemons : List (DeviceId × Nat)) (group : Nat) :
    ∀ (count i : Nat),
      (∃ j, i ≤ j ∧ j < i + count ∧
        (groupToDevice fuel m group j = none ∨
          ∃ d, groupToDevice fuel m group j = some d ∧ List.lookup d daemons = none)) →
      ∃ e, getSecondariesGo fuel m daemons group count i = .error e := by
  intro count
  induction count with
  | zero =>
    rintro i ⟨j, hj1, hj2, _⟩
    omega
  | succ count ih =>
    rintro i ⟨j, hj1, hj2, hfail⟩
    cases hd : groupToDevice fuel m group i with
    | none => exact ⟨.placementFailed, by simp [getSecondariesGo, hd]⟩
    | some d =>
        cases hl : List.lookup d daemons with
        | none => exact ⟨.noAddress, by simp [getSecondariesGo, hd, hl]⟩
        | some addr =>
            have hji : j ≠ i := by
              rintro rfl
              rcases hfail with h | ⟨d2, hd2, hl2⟩
              · rw [hd] at h; cases h
              · rw [hd] at hd2
                injection hd2 with h2
                subst h2
                rw [hl] at hl2
                cases hl2
            obtain ⟨e, he⟩ := ih (i + 1) ⟨j, by omega, by omega, hfail⟩
            exact ⟨e, by simp [getSecondariesGo, hd, hl, he]⟩

/-- **C10.**  When a pool is `Normal`, this daemon is the primary for the
object's group, and some secondary replica index `1 ≤ j < replicas` resolves to
a device absent from the peer roster, `get_location` returns an error and the
daemon drops the request with no reply and no backend call, counting it
invalid — for every plain read and write opcode 0x01–0x04 that the local
backend could otherwise have served. -/
theorem missing_secondary_dropped (fuel : Nat) (D : DaemonState) (B : Backend)
    (msg : List Nat) (msgCtr p1 nameLen p2 p3 cmd p4 objLen p5 p6 g : Nat)
    (poolName obj : List Nat) (m : StorageMap)
    (h1 : rdU32 msg 0 = some (msgCtr, p1))
    (h2 : rdU32 msg p1 = some (nameLen, p2))
    (h3 : rdBytes msg p2 nameLen = some (poolName, p3))
    (h4 : utf8Valid poolName = true)
    (h5 : rdU8 msg p3 = some (cmd, p4))
    (hcmd : cmd = 1 ∨ cmd = 2 ∨ cmd = 3 ∨ cmd = 4)
    (h6 : rdU32 msg p4 = some (objLen, p5))
    (h7 : rdBytes msg p5 objLen = some (obj, p6))
    (hpool : List.lookup poolName D.pools = some (.normal m))
    (hg : objectToGroup m obj = some g)
    (hprim : groupToDevice fuel m g 0 = some D.deviceId)
    (hmiss : ∃ j d, 1 ≤ j ∧ j < m.replicas ∧ groupToDevice fuel m g j = some d ∧
      List.lookup d D.storageDaemons = none) :
    (∃ e, getLocation fuel D poolName obj = .error e) ∧
    handleClientRequest fuel D B msg = ([], 1) := by
  obtain ⟨j, d, hj1, hj2, hjd, hjl⟩ := hmiss
  obtain ⟨e1, he1⟩ := getSecondariesGo_error fuel m D.storageDaemons g
    (m.replicas - 1) 1 ⟨j, hj1, by omega, Or.inr ⟨d, hjd, hjl⟩⟩
  have hloc : getLocation fuel D poolName obj = .error e1 := by
    simp only [getLocation, hpool, hg]
    rw [if_pos hprim]
    simp only [getSecondaries] at *
    rw [he1]
  refine ⟨⟨e1, hloc⟩, ?_⟩
  exact (inner_drops_on_getLocation_error fuel D B msg msgCtr p1 nameLen p2 p3 cmd p4
    objLen p5 p6 poolName obj e1 h1 h2 h3 h4 h5 hcmd h6 h7 hloc).2

/-- A two-replica map whose every replica resolves to `devSelf`. -/
def mapSelfTwoReplicas : StorageMap := ⟨1, 128, 2, .device devSelf⟩

/-- A daemon that is the primary for pool `"p"` but has an empty peer roster, so
the secondary (also `devSelf`, never in the roster) has no known address. -/
def daemonNoRoster : DaemonState := ⟨devSelf, [([112], .normal mapSelfTwoReplicas)], []⟩

/-- Witness: a plain `read_object` the local backend could serve is dropped
because the secondary's address is unknown. -/
theorem missing_secondary_dropped_witness :
    (∃ e, getLocation 10 daemonNoRoster [112] [97, 98, 99] = .error e) ∧
    handleClientRequest 10 daemonNoRoster backendNone
        (be32 7 ++ be32 1 ++ [112] ++ [1] ++ be32 3 ++ [97, 98, 99]) = ([], 1) :=
  missing_secondary_dropped 10 daemonNoRoster backendNone
    (be32 7 ++ be32 1 ++ [112] ++ [1] ++ be32 3 ++ [97, 98, 99])
    7 4 1 8 9 1 10 3 14 17 35 [112] [97, 98, 99] mapSelfTwoReplicas
    rfl rfl rfl rfl rfl (Or.inl rfl) rfl rfl rfl rfl rfl
    ⟨1, devSelf, le_rfl, by decide, rfl, rfl⟩

/-! ## Client receive demultiplexer (`src/client.rs`) -/

/-- State of a pending request's oneshot channel: the caller is still waiting,
or was cancelled and its receiver dropped.  `tokio::sync::oneshot::Sender::send`
returns `Err` exactly when the receiver is gone. -/
inductive ChanState where
  | waiting : ChanState
  | dropped : ChanState
deriving DecidableEq, Repr

/-- Result of one iteration of the client's `receive_task`
(`src/client.rs:313-332`) on an incoming datagram: the loop continues with an
updated pending table, delivering the payload to at most one caller
(`fired`) — or the task panics, because `channel.send(msg.to_owned()).unwrap()`
unwraps the `Err` that `send` returns when the receiver was dropped. -/
inductive RecvStep where
  | ok : List ((Nat × Nat) × ChanState) → Option (Nat × Nat) → RecvStep
  | panicked : RecvStep
deriving DecidableEq, Repr

/-- One iteration of `receive_task`: datagrams shorter than 4 bytes are skipped
(`continue`); otherwise the echoed counter is parsed from the first 4 bytes and
`(sender_address, counter)` is removed from `response_channels`; when an entry
is found, the payload is sent into its channel with `.unwrap()`.  `do_request`
(`src/client.rs:219-259`) has no cancellation guard: a cancelled caller's entry
stays in the table with a dropped receiver. -/
def receiveStep (table : List ((Nat × Nat) × ChanState)) (addr : Nat)
    (msg : List Nat) : RecvStep :=
  if msg.length < 4 then .ok table none
  else
    match List.lookup (addr, readBE32 msg) table with
    | none => .ok table none
    | some .waiting =>
        .ok (table.filter (fun e => !(e.1 == (addr, readBE32 msg))))
          (some (addr, readBE32 msg))
    | some .dropped => .panicked

/-- **C8** fails on the code (code bug): a reply arriving for a key whose caller
was cancelled finds the entry still present (`do_request` never removes it) with
a dropped receiver, and `channel.send(..).unwrap()` panics, killing the receive
task.  A true second delivery — the key already removed by a first delivery —
is indeed dropped without re-firing and leaves the table unchanged (second
conjunct). -/
theorem receive_after_cancel_panics :
    receiveStep [((7, 3), ChanState.dropped)] 7 (be32 3) = .panicked ∧
    receiveStep [] 7 (be32 3) = .ok [] none := by decide

end Store
